/-
  Verification development for the UWBNavigator-Web dashboard.

  Shallow embedding of the QoD (Quality of Data) estimator of the main page
  (`estimateScaleBiases`, `calculateAnchorQoD`, `calculateAllQoD`) and of the
  navigator-update relay route (`POST` / `GET` handlers with their bounded
  in-memory stores).  JavaScript numbers are modelled as exact rationals (ℚ);
  JavaScript truthiness on the fields the code actually tests is modelled
  explicitly: a number is truthy iff present and nonzero, a string is truthy
  iff non-empty, an array is truthy iff present (an empty array is truthy).
  JavaScript `Map`s are modelled as insertion-ordered association lists.
-/
import Mathlib

namespace UWBNav

/-- One pairwise measurement edge from one anchor to another
(`anchorConnections` entry).  Only the fields read by the QoD estimator are
kept; `measuredDistance` is optional in the source interface. -/
structure AnchorConnection where
  connectedTo : String
  connectedToId : String
  measuredDistance : Option ℚ
deriving Repr, DecidableEq

/-- `status: "idle" | "active"` of the source interface. -/
inductive AnchorStatus where
  | idle
  | active
deriving Repr, DecidableEq

/-- A stationary reference device.  `battery` is `number` in the interface but
the code guards every read with `|| 0`, so a missing value is representable;
`anchorConnections` is optional in the interface. -/
structure Anchor where
  id : String
  name : String
  destination : String
  battery : Option ℚ
  status : AnchorStatus
  anchorConnections : Option (List AnchorConnection)
deriving Repr, DecidableEq

/-- Lookup in an association list keyed by strings (JS object / `Map` read). -/
def assocLookup {β : Type} : List (String × β) → String → Option β
  | [], _ => none
  | (k, v) :: t, key => if k = key then some v else assocLookup t key

/-- `Map.set` semantics: replace the value in place if the key is present,
append a fresh entry otherwise (JS `Map` preserves insertion order). -/
def assocSet {β : Type} : List (String × β) → String → β → List (String × β)
  | [], k, v => [(k, v)]
  | (k', v') :: t, k, v => if k' = k then (k, v) :: t else (k', v') :: assocSet t k v

/-- The hardcoded ground-truth table of the source (values in meters:
10.287, 5.587 and 6.187, written here as exact fractions). -/
def GROUND_TRUTH_DISTANCES : List (String × ℚ) :=
  [("Window-Kitchen", 10287/1000),
   ("Kitchen-Window", 10287/1000),
   ("Window-Meeting Room", 5587/1000),
   ("Meeting Room-Window", 5587/1000),
   ("Kitchen-Meeting Room", 6187/1000),
   ("Meeting Room-Kitchen", 6187/1000)]

/-- `GROUND_TRUTH_DISTANCES[key]` as an optional read. -/
def groundTruth (key : String) : Option ℚ :=
  assocLookup GROUND_TRUTH_DISTANCES key

/-- The qualification gate shared by the estimator and the fallback:
`if (conn.measuredDistance && conn.connectedTo)` (number truthy iff nonzero,
string truthy iff non-empty) followed by the ground-truth read
`GROUND_TRUTH_DISTANCES[dest + "-" + conn.connectedTo]` and the
`if (expectedDistance)` test (every stored ground-truth value is nonzero, so
presence of the key is the effective test).  Returns the pair
(measured, expected) when the connection qualifies. -/
def connGroundTruth (dest : String) (c : AnchorConnection) : Option (ℚ × ℚ) :=
  match c.measuredDistance with
  | none => none
  | some m =>
    if m = 0 then none
    else if c.connectedTo = "" then none
    else
      match groundTruth (dest ++ "-" ++ c.connectedTo) with
      | none => none
      | some g => some (m, g)

/-- One equation `k_ij ≈ s_i + s_j` of the least-squares system. -/
structure BiasEquation where
  i : String
  j : String
  k : ℚ
deriving Repr, DecidableEq

/-- The equation pushed for one qualifying connection:
`{i: anchor.id, j: conn.connectedToId, k: 2*(measured - expected)/expected}`. -/
def connEquation (a : Anchor) (c : AnchorConnection) : Option BiasEquation :=
  (connGroundTruth a.destination c).map
    (fun mg => ⟨a.id, c.connectedToId, 2 * (mg.1 - mg.2) / mg.2⟩)

/-- `Set.add` on the insertion-ordered `anchorIds` set. -/
def insertId (ids : List String) (x : String) : List String :=
  if x ∈ ids then ids else ids ++ [x]

/-- Processing of one connection of the equation-building loop: push the
equation (when the connection qualifies) and add `connectedToId` to the id
set. -/
def collectConn (a : Anchor) (acc : List BiasEquation × List String)
    (c : AnchorConnection) : List BiasEquation × List String :=
  match connEquation a c with
  | none => acc
  | some e => (acc.1 ++ [e], insertId acc.2 e.j)

/-- Processing of one anchor of the equation-building loop:
`if (!anchor.anchorConnections || !anchor.destination) continue`, then
`anchorIds.add(anchor.id)`, then the loop over its connections. -/
def collectAnchor (acc : List BiasEquation × List String) (a : Anchor) :
    List BiasEquation × List String :=
  match a.anchorConnections with
  | none => acc
  | some conns =>
    if a.destination = "" then acc
    else conns.foldl (collectConn a) (acc.1, insertId acc.2 a.id)

/-- The `equations` list and the `anchorIds` set built by the first loop of
`estimateScaleBiases`, in program order. -/
def buildSystem (anchors : List Anchor) : List BiasEquation × List String :=
  anchors.foldl collectAnchor ([], [])

/-- The per-equation contributions to one id's update, in equation order:
`eq.k - s[other endpoint]` for every equation touching `id` (an equation with
`eq.i === id` is taken by the first branch, `else if (eq.j === id)` by the
second). -/
def touchContribs (eqs : List BiasEquation) (s : String → ℚ) (id : String) : List ℚ :=
  eqs.filterMap (fun e =>
    if e.i = id then some (e.k - s e.j)
    else if e.j = id then some (e.k - s e.i)
    else none)

/-- `count > 0 ? sum / count : 0`. -/
def meanOrZero (l : List ℚ) : ℚ :=
  if 0 < l.length then l.sum / (l.length : ℚ) else 0

/-- `s.get(id) || 0` (all reads in the solver hit initialized keys; a stored
value of 0 and a missing key both read as 0, exactly as in the source). -/
def lookupBias (s : List (String × ℚ)) (id : String) : ℚ :=
  (assocLookup s id).getD 0

/-- The inner loop of one solver iteration for one id: accumulate
`eq.k - s[other endpoint]` over every equation touching `id`, then
`count > 0 ? sum / count : 0`. -/
def sweepValue (eqs : List BiasEquation) (s : List (String × ℚ)) (id : String) : ℚ :=
  meanOrZero (touchContribs eqs (lookupBias s) id)

/-- One full solver iteration: `newS` is computed for every id of
`anchorIdArray` reading only the previous map `s`, and afterwards
`newS.forEach((value, key) => s.set(key, value))` overwrites every key of `s`;
since `s` and `newS` hold exactly the ids of `anchorIdArray` in the same
insertion order, the updated map is `newS` itself. -/
def sweepStep (eqs : List BiasEquation) (ids : List String)
    (s : List (String × ℚ)) : List (String × ℚ) :=
  ids.map (fun id => (id, sweepValue eqs s id))

/-- `estimateScaleBiases`: build the equation system; bail out with the empty
map when fewer than 2 equations or fewer than 2 collected ids; otherwise
initialize every collected id to bias 0 and run exactly 10 iterations. -/
def estimateScaleBiases (anchors : List Anchor) : List (String × ℚ) :=
  if (buildSystem anchors).1.length < 2 ∨ (buildSystem anchors).2.length < 2 then []
  else (sweepStep (buildSystem anchors).1 (buildSystem anchors).2)^[10]
    ((buildSystem anchors).2.map (fun id => (id, (0 : ℚ))))

/-- Insertion into an ascending list, used to model
`percentErrors.sort((a, b) => a - b)`. -/
def insertSorted (x : ℚ) : List ℚ → List ℚ
  | [] => [x]
  | y :: t => if x ≤ y then x :: y :: t else y :: insertSorted x t

/-- Ascending numeric sort (the observable behavior of
`array.sort((a, b) => a - b)` on rationals). -/
def sortAsc (l : List ℚ) : List ℚ := l.foldr insertSorted []

/-- The median of the fallback path: sort ascending, then average the two
middle values when the count is even, take the middle value when odd. -/
def median (l : List ℚ) : ℚ :=
  let sorted := sortAsc l
  if l.length % 2 = 0 then
    (sorted.getD (l.length / 2 - 1) 0 + sorted.getD (l.length / 2) 0) / 2
  else
    sorted.getD (l.length / 2) 0

/-- The percent error pushed by the fallback path for one qualifying
connection: `Math.abs((measured - expected) / expected)`. -/
def connPercentError (dest : String) (c : AnchorConnection) : Option ℚ :=
  (connGroundTruth dest c).map (fun mg => |(mg.1 - mg.2) / mg.2|)

/-- `method: 'least-squares' | 'fallback'` of the result interface. -/
inductive QoDMethod where
  | leastSquares
  | fallback
deriving Repr, DecidableEq

/-- The `QoDResult` interface. -/
structure QoDResult where
  qod : ℚ
  accuracyScore : ℚ
  healthScore : ℚ
  scaleBias : Option ℚ
  method : QoDMethod
deriving Repr, DecidableEq

/-- The default tolerance `tau = 0.05` (the only value the source ever uses). -/
def tau : ℚ := 1/20

/-- `calculateAnchorQoD`: least-squares accuracy when the anchor's id is in the
bias map, otherwise the median-percent-error fallback, otherwise the defaults
`accuracyScore = 0`, `scaleBias` undefined, `method = 'fallback'`; then the
health score and the clamped blend. -/
def calculateAnchorQoD (anchor : Anchor) (allAnchors : List Anchor) : QoDResult :=
  let biases := estimateScaleBiases allAnchors
  let acc : ℚ × Option ℚ × QoDMethod :=
    match assocLookup biases anchor.id with
    | some b => (100 * max 0 (1 - |b| / tau), some b, QoDMethod.leastSquares)
    | none =>
      match anchor.anchorConnections with
      | none => (0, none, QoDMethod.fallback)
      | some conns =>
        if 0 < conns.length ∧ anchor.destination ≠ "" then
          let percentErrors := conns.filterMap (connPercentError anchor.destination)
          if 0 < percentErrors.length then
            let med := median percentErrors
            (100 * max 0 (1 - med / tau), some med, QoDMethod.fallback)
          else (0, none, QoDMethod.fallback)
        else (0, none, QoDMethod.fallback)
  let batteryScore := anchor.battery.getD 0 / 100
  let statusScore : ℚ := if anchor.status = AnchorStatus.active then 1 else 1/2
  let healthScore := 100 * (4/5 * batteryScore + 1/5 * statusScore)
  let qod := min 100 (max 0 (4/5 * acc.1 + 1/5 * healthScore))
  ⟨qod, acc.1, healthScore, acc.2.1, acc.2.2⟩

/-- `calculateAllQoD`: one `Map.set` per anchor, in list order. -/
def calculateAllQoD (anchors : List Anchor) : List (String × QoDResult) :=
  anchors.foldl (fun m a => assocSet m a.id (calculateAnchorQoD a anchors)) []

/- ----------------------------------------------------------------- -/
/- The navigator-update relay route (module-level stores + handlers). -/
/- ----------------------------------------------------------------- -/

/-- Opaque payload of an archived smart contract (`data.contract`). -/
def ContractData : Type := String

/-- Opaque payload of a regular navigator update (`data`). -/
def UpdateData : Type := String

/-- One `POST /api/navigator-update` request after `req.json()`:
either the parse throws (`malformed`, answered 500 with the stores
untouched), or the body is a completion notification
(`data.type === 'navigator_completed'`, with an optional `data.contract`),
or a regular update.  `time` is the ambient timestamp the handler attaches
to the archived record. -/
inductive RelayRequest where
  | malformed
  | completion (contract : Option ContractData) (time : ℚ)
  | update (u : UpdateData) (time : ℚ)

/-- The two module-level stores `navigatorUpdates` and `smartContracts`. -/
structure RelayState where
  navigatorUpdates : List (UpdateData × ℚ)
  smartContracts : List (ContractData × ℚ)

/-- Both stores start as empty arrays. -/
def initialRelayState : RelayState := ⟨[], []⟩

/-- The state transition of the `POST` handler: push the archived record,
then trim with `slice(-100)` (contracts) or `slice(-50)` (updates) when the
store exceeds its bound.  A completion without a contract and a malformed
body leave the stores unchanged. -/
def POST (st : RelayState) (r : RelayRequest) : RelayState :=
  match r with
  | .malformed => st
  | .completion none _ => st
  | .completion (some c) t =>
    let cs := st.smartContracts ++ [(c, t)]
    { st with smartContracts := if 100 < cs.length then cs.drop (cs.length - 100) else cs }
  | .update u t =>
    let us := st.navigatorUpdates ++ [(u, t)]
    { st with navigatorUpdates := if 50 < us.length then us.drop (us.length - 50) else us }

/-- The `GET` handler: echo the two stores and the update count. -/
def GET (st : RelayState) : List (UpdateData × ℚ) × List (ContractData × ℚ) × Nat :=
  (st.navigatorUpdates, st.smartContracts, st.navigatorUpdates.length)

/-- The contracts successfully posted by a request sequence, in order. -/
def postedContracts (rs : List RelayRequest) : List (ContractData × ℚ) :=
  rs.filterMap (fun r =>
    match r with
    | .completion (some c) t => some (c, t)
    | _ => none)

/-- The regular updates posted by a request sequence, in order. -/
def postedUpdates (rs : List RelayRequest) : List (UpdateData × ℚ) :=
  rs.filterMap (fun r =>
    match r with
    | .update u t => some (u, t)
    | _ => none)

/-- The `n` most recent elements of a list (all of it when shorter). -/
def lastN {α : Type} (n : Nat) (l : List α) : List α := l.drop (l.length - n)

/- ------------------------------------------------------------- -/
/- Spec-side definitions, for refinement statements.              -/
/- ------------------------------------------------------------- -/

/-- Spec-side description of one relaxation sweep, following the spec's
words: every anchor's new bias is the mean, over every equation touching it,
of (k minus the other endpoint's bias from the previous sweep); an anchor
touched by zero equations gets bias 0.  The whole previous state `s` is read,
never the state being built. -/
def specRelaxationStep (eqs : List BiasEquation) (s : String → ℚ) : String → ℚ :=
  fun id => meanOrZero (touchContribs eqs s id)

/-- The equations contributed by one anchor, in connection order. -/
def anchorEquations (a : Anchor) : List BiasEquation :=
  match a.anchorConnections with
  | none => []
  | some conns =>
    if a.destination = "" then [] else conns.filterMap (connEquation a)

/-- All equations of the system, in program order. -/
def eqsOf : List Anchor → List BiasEquation
  | [] => []
  | a :: t => anchorEquations a ++ eqsOf t

/-- The identifiers one anchor contributes to the collected id set: its own id
as soon as it carries a connections array and a non-empty destination, plus
the `connectedToId` of each of its qualifying connections. -/
def anchorIdContrib (a : Anchor) : List String :=
  match a.anchorConnections with
  | none => []
  | some conns =>
    if a.destination = "" then []
    else a.id :: (conns.filterMap (connEquation a)).map BiasEquation.j

/-- All identifier contributions, in program order (with repetitions; only
membership matters). -/
def idsOf : List Anchor → List String
  | [] => []
  | a :: t => anchorIdContrib a ++ idsOf t

/- ------------------------------------------------------------- -/
/- Concrete instances used by witnesses and counterexamples.      -/
/- ------------------------------------------------------------- -/

/-- An anchor at "Window" with two exact-distance connections to the anchor
with id "B" (both equations have k = 0). -/
def windowExact : Anchor :=
  ⟨"A", "a", "Window", some 100, .active,
    some [⟨"Kitchen", "B", some (10287/1000)⟩,
          ⟨"Meeting Room", "B", some (5587/1000)⟩]⟩

/-- An anchor carrying an empty connections array and a destination: it
contributes no equation but is still added to the collected id set. -/
def idleKitchen : Anchor := ⟨"C", "c", "Kitchen", some 100, .active, some []⟩

def exListC1 : List Anchor := [windowExact, idleKitchen]

/-- A two-edge path: "A" measures "B" at 11 m (truth 10.287), "B" measures
"C" at 6 m (truth 6.187). -/
def pathWindow : Anchor :=
  ⟨"A", "a", "Window", some 100, .active, some [⟨"Kitchen", "B", some 11⟩]⟩

def pathKitchen : Anchor :=
  ⟨"B", "b", "Kitchen", some 100, .active, some [⟨"Meeting Room", "C", some 6⟩]⟩

def exListC3 : List Anchor := [pathWindow, pathKitchen]

/-- Three qualifying connections with absolute percent errors
0.02, 0.08 and 0.05 (measured = truth * 1.02, * 1.08, * 1.05). -/
def fallbackConns : List AnchorConnection :=
  [⟨"Kitchen", "B", some (1049274/100000)⟩,
   ⟨"Kitchen", "B", some (1110996/100000)⟩,
   ⟨"Meeting Room", "B", some (586635/100000)⟩]

def fallbackAnchor : Anchor := ⟨"W", "w", "Window", some 100, .active, some fallbackConns⟩

/-- An anchor with no destination and no connections array. -/
def bareAnchor : Anchor := ⟨"X", "x", "", some 50, .active, none⟩

/-- An anchor with no destination and no connections whose id is referenced
as `connectedToId` by another anchor's qualifying connections. -/
def referencedByOthers : Anchor := ⟨"X", "x", "", some 100, .idle, none⟩

def referencingAnchor : Anchor :=
  ⟨"A", "a", "Window", some 100, .active,
    some [⟨"Kitchen", "X", some (10287/1000)⟩,
          ⟨"Meeting Room", "X", some (5587/1000)⟩]⟩

def exListC9 : List Anchor := [referencingAnchor, referencedByOthers]

/-- One exact-distance equation from "A" to "B"; "B" itself has no data. -/
def singleEqSource : Anchor :=
  ⟨"A", "a", "Window", some 100, .active, some [⟨"Kitchen", "B", some (10287/1000)⟩]⟩

def singleEqTarget : Anchor := ⟨"B", "b", "", some 100, .idle, none⟩

def exListC4 : List Anchor := [singleEqSource, singleEqTarget]

/-- A connection whose measured distance is present but zero, with its
ground-truth pair present in the table. -/
def zeroDistConn : AnchorConnection := ⟨"Kitchen", "B", some 0⟩

def zeroDistAnchor : Anchor :=
  ⟨"Z", "z", "Window", some 100, .active, some [zeroDistConn]⟩

/-- An anchor with no battery reading, idle, no destination, no connections. -/
def emptyBatteryAnchor : Anchor := ⟨"N", "n", "", none, .idle, none⟩

/- ------------------------------------------------------------- -/
/- Helper lemmas.                                                 -/
/- ------------------------------------------------------------- -/

theorem assocLookup_map_self (g : String → ℚ) (ids : List String) (id : String) :
    assocLookup (ids.map (fun i => (i, g i))) id =
      if id ∈ ids then some (g id) else none := by
  induction ids with
  | nil => simp [assocLookup]
  | cons i t ih =>
    simp only [List.map_cons, assocLookup, List.mem_cons]
    by_cases h : i = id
    · subst h; simp
    · have h2 : ¬(id = i) := fun hh => h hh.symm
      simp [h, h2, ih]

theorem assocLookup_mem {β : Type} :
    ∀ {l : List (String × β)} {k : String} {v : β},
    assocLookup l k = some v → (k, v) ∈ l := by
  intro l
  induction l with
  | nil => intro k v h; simp [assocLookup] at h
  | cons p t ih =>
    intro k v h
    obtain ⟨k', v'⟩ := p
    rw [assocLookup] at h
    by_cases hk : k' = k
    · rw [if_pos hk] at h
      injection h with h
      subst hk; subst h
      exact List.mem_cons_self _ _
    · rw [if_neg hk] at h
      exact List.mem_cons_of_mem _ (ih h)

theorem insertId_mem (ids : List String) (x y : String) :
    y ∈ insertId ids x ↔ y ∈ ids ∨ y = x := by
  unfold insertId
  split
  · rename_i h
    constructor
    · exact Or.inl
    · rintro (hy | rfl)
      · exact hy
      · exact h
  · simp [List.mem_append]

theorem foldl_collectConn_fst (a : Anchor) :
    ∀ (conns : List AnchorConnection) (acc : List BiasEquation × List String),
    (conns.foldl (collectConn a) acc).1 = acc.1 ++ conns.filterMap (connEquation a) := by
  intro conns
  induction conns with
  | nil => intro acc; simp
  | cons c t ih =>
    intro acc
    simp only [List.foldl_cons, List.filterMap_cons]
    cases h : connEquation a c with
    | none => simp [collectConn, h, ih]
    | some e => simp [collectConn, h, ih]

theorem collectAnchor_fst (acc : List BiasEquation × List String) (a : Anchor) :
    (collectAnchor acc a).1 = acc.1 ++ anchorEquations a := by
  unfold collectAnchor anchorEquations
  cases a.anchorConnections with
  | none => simp
  | some conns =>
    by_cases h : a.destination = ""
    · simp [h]
    · simp [h, foldl_collectConn_fst]

theorem foldl_collectAnchor_fst :
    ∀ (l : List Anchor) (acc : List BiasEquation × List String),
    (l.foldl collectAnchor acc).1 = acc.1 ++ eqsOf l := by
  intro l
  induction l with
  | nil => intro acc; simp [eqsOf]
  | cons a t ih =>
    intro acc
    simp only [List.foldl_cons, eqsOf]
    rw [ih, collectAnchor_fst, List.append_assoc]

theorem buildSystem_fst (anchors : List Anchor) :
    (buildSystem anchors).1 = eqsOf anchors := by
  unfold buildSystem
  rw [foldl_collectAnchor_fst]
  simp

theorem foldl_collectConn_snd_mem (a : Anchor) :
    ∀ (conns : List AnchorConnection) (acc : List BiasEquation × List String) (x : String),
    x ∈ (conns.foldl (collectConn a) acc).2 ↔
      x ∈ acc.2 ∨ x ∈ (conns.filterMap (connEquation a)).map BiasEquation.j := by
  intro conns
  induction conns with
  | nil => intro acc x; simp
  | cons c t ih =>
    intro acc x
    simp only [List.foldl_cons, List.filterMap_cons]
    cases h : connEquation a c with
    | none => simp [collectConn, h, ih]
    | some e =>
      simp only [collectConn, h, List.map_cons, List.mem_cons]
      rw [ih]
      simp only [insertId_mem]
      tauto

theorem collectAnchor_snd_mem (acc : List BiasEquation × List String) (a : Anchor)
    (x : String) :
    x ∈ (collectAnchor acc a).2 ↔ x ∈ acc.2 ∨ x ∈ anchorIdContrib a := by
  unfold collectAnchor anchorIdContrib
  cases a.anchorConnections with
  | none => simp
  | some conns =>
    by_cases h : a.destination = ""
    · simp [h]
    · simp only [h, if_false, ite_false, reduceIte]
      rw [foldl_collectConn_snd_mem]
      simp only [insertId_mem, List.mem_cons]
      tauto

theorem foldl_collectAnchor_snd_mem :
    ∀ (l : List Anchor) (acc : List BiasEquation × List String) (x : String),
    x ∈ (l.foldl collectAnchor acc).2 ↔ x ∈ acc.2 ∨ x ∈ idsOf l := by
  intro l
  induction l with
  | nil => intro acc x; simp [idsOf]
  | cons a t ih =>
    intro acc x
    simp only [List.foldl_cons, idsOf, List.mem_append]
    rw [ih, collectAnchor_snd_mem]
    tauto

theorem buildSystem_snd_mem (anchors : List Anchor) (x : String) :
    x ∈ (buildSystem anchors).2 ↔ x ∈ idsOf anchors := by
  unfold buildSystem
  rw [foldl_collectAnchor_snd_mem]
  simp

theorem mem_eqsOf {e : BiasEquation} :
    ∀ {l : List Anchor}, e ∈ eqsOf l ↔ ∃ a, a ∈ l ∧ e ∈ anchorEquations a := by
  intro l
  induction l with
  | nil => simp [eqsOf]
  | cons a t ih =>
    simp only [eqsOf, List.mem_append, List.mem_cons, ih]
    constructor
    · rintro (h | ⟨b, hb, he⟩)
      · exact ⟨a, Or.inl rfl, h⟩
      · exact ⟨b, Or.inr hb, he⟩
    · rintro ⟨b, hb | hb, he⟩
      · subst hb; exact Or.inl he
      · exact Or.inr ⟨b, hb, he⟩

theorem mem_anchorEquations {a : Anchor} {e : BiasEquation} :
    e ∈ anchorEquations a ↔
      ∃ conns, a.anchorConnections = some conns ∧ a.destination ≠ "" ∧
        ∃ c, c ∈ conns ∧ connEquation a c = some e := by
  unfold anchorEquations
  cases hc : a.anchorConnections with
  | none => simp
  | some conns =>
    by_cases h : a.destination = ""
    · simp [h]
    · simp [h, List.mem_filterMap]

theorem mem_anchorEquations_of_mem {l : List Anchor} {a : Anchor} {e : BiasEquation}
    (ha : a ∈ l) (he : e ∈ anchorEquations a) : e ∈ eqsOf l :=
  mem_eqsOf.mpr ⟨a, ha, he⟩

theorem connGroundTruth_eq_some {dest : String} {c : AnchorConnection} {m g : ℚ} :
    connGroundTruth dest c = some (m, g) ↔
      c.measuredDistance = some m ∧ m ≠ 0 ∧ c.connectedTo ≠ "" ∧
        groundTruth (dest ++ "-" ++ c.connectedTo) = some g := by
  unfold connGroundTruth
  cases hm : c.measuredDistance with
  | none => simp
  | some m' =>
    dsimp only
    by_cases h0 : m' = 0
    · subst h0
      simp only [if_pos rfl]
      constructor
      · intro h; exact absurd h (by simp)
      · rintro ⟨h1, h2, -⟩
        injection h1 with h1
        exact absurd h1.symm h2
    · rw [if_neg h0]
      by_cases hct : c.connectedTo = ""
      · simp [hct]
      · rw [if_neg hct]
        cases hg : groundTruth (dest ++ "-" ++ c.connectedTo) with
        | none => simp
        | some g' =>
          simp only [Option.some.injEq, Prod.mk.injEq]
          constructor
          · rintro ⟨rfl, rfl⟩
            exact ⟨rfl, h0, hct, rfl⟩
          · rintro ⟨h1, -, -, h4⟩
            exact ⟨h1, h4⟩

theorem connEquation_eq_some {a : Anchor} {c : AnchorConnection} {e : BiasEquation} :
    connEquation a c = some e ↔
      ∃ m g, c.measuredDistance = some m ∧ m ≠ 0 ∧ c.connectedTo ≠ "" ∧
        groundTruth (a.destination ++ "-" ++ c.connectedTo) = some g ∧
        e = ⟨a.id, c.connectedToId, 2 * (m - g) / g⟩ := by
  unfold connEquation
  rw [Option.map_eq_some']
  constructor
  · rintro ⟨⟨m, g⟩, hmg, rfl⟩
    rw [connGroundTruth_eq_some] at hmg
    exact ⟨m, g, hmg.1, hmg.2.1, hmg.2.2.1, hmg.2.2.2, rfl⟩
  · rintro ⟨m, g, hm, h0, hct, hg, rfl⟩
    exact ⟨(m, g), connGroundTruth_eq_some.mpr ⟨hm, h0, hct, hg⟩, rfl⟩

theorem connPercentError_eq_some {dest : String} {c : AnchorConnection} {x : ℚ} :
    connPercentError dest c = some x ↔
      ∃ m g, connGroundTruth dest c = some (m, g) ∧ x = |(m - g) / g| := by
  unfold connPercentError
  rw [Option.map_eq_some']
  constructor
  · rintro ⟨⟨m, g⟩, hmg, rfl⟩
    exact ⟨m, g, hmg, rfl⟩
  · rintro ⟨m, g, hmg, rfl⟩
    exact ⟨(m, g), hmg, rfl⟩

theorem anchorEquations_endpoints {a : Anchor} {e : BiasEquation}
    (h : e ∈ anchorEquations a) :
    e.i ∈ anchorIdContrib a ∧ e.j ∈ anchorIdContrib a := by
  rw [mem_anchorEquations] at h
  obtain ⟨conns, hc, hd, c, hcm, he⟩ := h
  have hmemf : e ∈ conns.filterMap (connEquation a) :=
    List.mem_filterMap.mpr ⟨c, hcm, he⟩
  have hei : e.i = a.id := by
    rw [connEquation_eq_some] at he
    obtain ⟨m, g, -, -, -, -, rfl⟩ := he
    rfl
  unfold anchorIdContrib
  rw [hc]
  dsimp only
  rw [if_neg hd]
  constructor
  · rw [hei]; exact List.mem_cons_self _ _
  · exact List.mem_cons_of_mem _ (List.mem_map.mpr ⟨e, hmemf, rfl⟩)

theorem eqsOf_endpoints :
    ∀ {l : List Anchor} {e : BiasEquation}, e ∈ eqsOf l →
      e.i ∈ idsOf l ∧ e.j ∈ idsOf l := by
  intro l
  induction l with
  | nil => intro e h; simp [eqsOf] at h
  | cons a t ih =>
    intro e h
    simp only [eqsOf, List.mem_append] at h
    simp only [idsOf, List.mem_append]
    rcases h with h | h
    · have h2 := anchorEquations_endpoints h
      exact ⟨Or.inl h2.1, Or.inl h2.2⟩
    · have h2 := ih h
      exact ⟨Or.inr h2.1, Or.inr h2.2⟩

theorem buildSystem_endpoints {anchors : List Anchor} {e : BiasEquation}
    (h : e ∈ (buildSystem anchors).1) :
    e.i ∈ (buildSystem anchors).2 ∧ e.j ∈ (buildSystem anchors).2 := by
  rw [buildSystem_fst] at h
  have h2 := eqsOf_endpoints h
  rw [buildSystem_snd_mem, buildSystem_snd_mem]
  exact h2

theorem touchContribs_congr {eqs : List BiasEquation} {f g : String → ℚ}
    (h : ∀ x, f x = g x) (id : String) :
    touchContribs eqs f id = touchContribs eqs g id := by
  unfold touchContribs
  simp only [h]

theorem sweepValue_eq_spec {eqs : List BiasEquation} {s : List (String × ℚ)}
    {f : String → ℚ} (h : ∀ x, lookupBias s x = f x) (id : String) :
    sweepValue eqs s id = specRelaxationStep eqs f id := by
  unfold sweepValue specRelaxationStep
  rw [touchContribs_congr h]

theorem specStep_untouched {eqs : List BiasEquation} {f : String → ℚ} {id : String}
    (h : ∀ e ∈ eqs, e.i ≠ id ∧ e.j ≠ id) :
    specRelaxationStep eqs f id = 0 := by
  unfold specRelaxationStep touchContribs meanOrZero
  have hnil : (eqs.filterMap (fun e =>
      if e.i = id then some (e.k - f e.j)
      else if e.j = id then some (e.k - f e.i)
      else none)) = [] := by
    rw [List.filterMap_eq_nil_iff]
    intro e he
    simp [(h e he).1, (h e he).2]
  rw [hnil]
  simp

theorem meanOrZero_zero {l : List ℚ} (h : ∀ q ∈ l, q = 0) : meanOrZero l = 0 := by
  unfold meanOrZero
  rw [List.sum_eq_zero h]
  simp

theorem specStep_zero {eqs : List BiasEquation} (hk : ∀ e ∈ eqs, e.k = 0) :
    ∀ (n : ℕ) (x : String), (specRelaxationStep eqs)^[n] (fun _ => 0) x = 0 := by
  intro n
  induction n with
  | zero => intro x; simp
  | succ n ih =>
    intro x
    rw [Function.iterate_succ_apply']
    show meanOrZero
      (touchContribs eqs ((specRelaxationStep eqs)^[n] (fun _ => 0)) x) = 0
    apply meanOrZero_zero
    intro q hq
    unfold touchContribs at hq
    obtain ⟨e, he, hfe⟩ := List.mem_filterMap.mp hq
    by_cases h1 : e.i = x
    · rw [if_pos h1] at hfe
      injection hfe with hfe
      rw [← hfe, hk e he, ih]
      ring
    · rw [if_neg h1] at hfe
      by_cases h2 : e.j = x
      · rw [if_pos h2] at hfe
        injection hfe with hfe
        rw [← hfe, hk e he, ih]
        ring
      · rw [if_neg h2] at hfe
        exact absurd hfe (by simp)

theorem sweepStep_keys (eqs : List BiasEquation) (ids : List String)
    (s : List (String × ℚ)) : (sweepStep eqs ids s).map Prod.fst = ids := by
  unfold sweepStep
  rw [List.map_map]
  simp [Function.comp_def]

theorem mem_sweepStep {eqs : List BiasEquation} {ids : List String}
    {s : List (String × ℚ)} {p : String × ℚ} :
    p ∈ sweepStep eqs ids s ↔ ∃ id ∈ ids, p = (id, sweepValue eqs s id) := by
  unfold sweepStep
  simp [List.mem_map, eq_comm]

theorem iterate_keys (eqs : List BiasEquation) (ids : List String) (n : ℕ) :
    ((sweepStep eqs ids)^[n] (ids.map (fun id => (id, (0 : ℚ))))).map Prod.fst = ids := by
  cases n with
  | zero => rw [Function.iterate_zero, id_eq, List.map_map]; simp [Function.comp_def]
  | succ n =>
    rw [Function.iterate_succ_apply']
    exact sweepStep_keys _ _ _

theorem iterate_lookup (eqs : List BiasEquation) (ids : List String)
    (hend : ∀ e ∈ eqs, e.i ∈ ids ∧ e.j ∈ ids) :
    ∀ (n : ℕ) (x : String),
      lookupBias ((sweepStep eqs ids)^[n] (ids.map (fun id => (id, (0 : ℚ))))) x =
        (specRelaxationStep eqs)^[n] (fun _ => 0) x := by
  intro n
  induction n with
  | zero =>
    intro x
    simp only [Function.iterate_zero, id_eq]
    unfold lookupBias
    rw [assocLookup_map_self]
    split <;> simp
  | succ n ih =>
    intro x
    rw [Function.iterate_succ_apply', Function.iterate_succ_apply']
    unfold lookupBias sweepStep
    rw [assocLookup_map_self]
    by_cases hx : x ∈ ids
    · rw [if_pos hx]
      exact sweepValue_eq_spec ih x
    · rw [if_neg hx]
      simp only [Option.getD_none]
      symm
      exact specStep_untouched (fun e he =>
        ⟨fun h => hx (h ▸ (hend e he).1), fun h => hx (h ▸ (hend e he).2)⟩)

theorem estimateScaleBiases_lookup (anchors : List Anchor)
    (h : ¬((buildSystem anchors).1.length < 2 ∨ (buildSystem anchors).2.length < 2)) :
    ∀ x : String,
      assocLookup (estimateScaleBiases anchors) x =
        if x ∈ (buildSystem anchors).2
        then some ((specRelaxationStep (buildSystem anchors).1)^[10] (fun _ => 0) x)
        else none := by
  intro x
  unfold estimateScaleBiases
  rw [if_neg h]
  rw [show (10 : ℕ) = 9 + 1 from rfl, Function.iterate_succ_apply']
  unfold sweepStep
  rw [assocLookup_map_self]
  by_cases hx : x ∈ (buildSystem anchors).2
  · rw [if_pos hx, if_pos hx]
    congr 1
    rw [Function.iterate_succ_apply']
    exact sweepValue_eq_spec
      (iterate_lookup _ _ (fun e he => buildSystem_endpoints he) 9) x
  · rw [if_neg hx, if_neg hx]

theorem estimateScaleBiases_values_zero {anchors : List Anchor}
    (hk : ∀ e ∈ (buildSystem anchors).1, e.k = 0) :
    ∀ p ∈ estimateScaleBiases anchors, p.2 = 0 := by
  intro p hp
  unfold estimateScaleBiases at hp
  by_cases h : (buildSystem anchors).1.length < 2 ∨ (buildSystem anchors).2.length < 2
  · rw [if_pos h] at hp
    simp at hp
  · rw [if_neg h] at hp
    rw [show (10 : ℕ) = 9 + 1 from rfl, Function.iterate_succ_apply'] at hp
    obtain ⟨id, hid, rfl⟩ := mem_sweepStep.mp hp
    show sweepValue _ _ id = 0
    rw [sweepValue_eq_spec
      (iterate_lookup _ _ (fun e he => buildSystem_endpoints he) 9) id]
    rw [← Function.iterate_succ_apply' (specRelaxationStep (buildSystem anchors).1)
      9 (fun _ => 0)]
    exact specStep_zero hk (9 + 1) id

theorem mem_insertSorted {x y : ℚ} :
    ∀ {l : List ℚ}, x ∈ insertSorted y l ↔ x = y ∨ x ∈ l := by
  intro l
  induction l with
  | nil => simp [insertSorted]
  | cons a t ih =>
    unfold insertSorted
    split
    · simp [List.mem_cons]
    · simp only [List.mem_cons, ih]
      tauto

theorem mem_sortAsc {x : ℚ} : ∀ {l : List ℚ}, x ∈ sortAsc l ↔ x ∈ l := by
  intro l
  induction l with
  | nil => simp [sortAsc]
  | cons a t ih =>
    show x ∈ insertSorted a (sortAsc t) ↔ _
    rw [mem_insertSorted]
    simp [ih]

theorem getD_zero_of_all_zero :
    ∀ (l : List ℚ) (i : ℕ), (∀ x ∈ l, x = 0) → l.getD i 0 = 0 := by
  intro l
  induction l with
  | nil => intro i h; simp
  | cons a t ih =>
    intro i h
    cases i with
    | zero => simpa using h a (List.mem_cons_self _ _)
    | succ i =>
      simp only [List.getD_cons_succ]
      exact ih i (fun x hx => h x (List.mem_cons_of_mem _ hx))

theorem median_zero {l : List ℚ} (h : ∀ x ∈ l, x = 0) : median l = 0 := by
  have hs : ∀ x ∈ sortAsc l, x = 0 := fun x hx => h x (mem_sortAsc.mp hx)
  unfold median
  dsimp only
  split
  · rw [getD_zero_of_all_zero _ _ hs, getD_zero_of_all_zero _ _ hs]
    norm_num
  · exact getD_zero_of_all_zero _ _ hs

theorem lastN_of_le {α : Type} {n : ℕ} {l : List α} (h : l.length ≤ n) :
    lastN n l = l := by
  unfold lastN
  have h0 : l.length - n = 0 := by omega
  rw [h0, List.drop_zero]

theorem lastN_length_le {α : Type} (n : ℕ) (l : List α) : (lastN n l).length ≤ n := by
  unfold lastN
  rw [List.length_drop]
  omega

theorem trim_eq_lastN {α : Type} (n : ℕ) (l : List α) :
    (if n < l.length then l.drop (l.length - n) else l) = lastN n l := by
  unfold lastN
  split
  · rfl
  · rename_i h
    have h0 : l.length - n = 0 := by omega
    rw [h0, List.drop_zero]

theorem lastN_lastN_append {α : Type} (n : ℕ) (l r : List α) :
    lastN n (lastN n l ++ r) = lastN n (l ++ r) := by
  unfold lastN
  rw [← List.drop_append_of_le_length (Nat.sub_le l.length n), List.drop_drop]
  congr 1
  simp only [List.length_drop, List.length_append]
  omega

theorem POST_contracts_step (st : RelayState) (c : ContractData) (t : ℚ) :
    (POST st (.completion (some c) t)).smartContracts =
      lastN 100 (st.smartContracts ++ [(c, t)]) := by
  show (if 100 < (st.smartContracts ++ [(c, t)]).length
      then (st.smartContracts ++ [(c, t)]).drop
        ((st.smartContracts ++ [(c, t)]).length - 100)
      else st.smartContracts ++ [(c, t)]) = _
  exact trim_eq_lastN 100 _

theorem POST_updates_step (st : RelayState) (u : UpdateData) (t : ℚ) :
    (POST st (.update u t)).navigatorUpdates =
      lastN 50 (st.navigatorUpdates ++ [(u, t)]) := by
  show (if 50 < (st.navigatorUpdates ++ [(u, t)]).length
      then (st.navigatorUpdates ++ [(u, t)]).drop
        ((st.navigatorUpdates ++ [(u, t)]).length - 50)
      else st.navigatorUpdates ++ [(u, t)]) = _
  exact trim_eq_lastN 50 _

theorem relay_foldl :
    ∀ (rs : List RelayRequest) (st : RelayState),
    st.smartContracts.length ≤ 100 → st.navigatorUpdates.length ≤ 50 →
    (rs.foldl POST st).smartContracts =
      lastN 100 (st.smartContracts ++ postedContracts rs) ∧
    (rs.foldl POST st).navigatorUpdates =
      lastN 50 (st.navigatorUpdates ++ postedUpdates rs) := by
  intro rs
  induction rs with
  | nil =>
    intro st h1 h2
    simp only [List.foldl_nil, postedContracts, postedUpdates, List.filterMap_nil,
      List.append_nil]
    exact ⟨(lastN_of_le h1).symm, (lastN_of_le h2).symm⟩
  | cons r rs ih =>
    intro st h1 h2
    simp only [List.foldl_cons]
    cases r with
    | malformed =>
      have hst : POST st .malformed = st := rfl
      rw [hst]
      have h := ih st h1 h2
      constructor
      · rw [h.1]
        simp [postedContracts, List.filterMap_cons]
      · rw [h.2]
        simp [postedUpdates, List.filterMap_cons]
    | completion oc t =>
      cases oc with
      | none =>
        have hst : POST st (.completion none t) = st := rfl
        rw [hst]
        have h := ih st h1 h2
        constructor
        · rw [h.1]
          simp [postedContracts, List.filterMap_cons]
        · rw [h.2]
          simp [postedUpdates, List.filterMap_cons]
      | some c =>
        have hcs : (POST st (.completion (some c) t)).smartContracts =
            lastN 100 (st.smartContracts ++ [(c, t)]) := POST_contracts_step st c t
        have hus : (POST st (.completion (some c) t)).navigatorUpdates =
            st.navigatorUpdates := rfl
        have hb1 : (POST st (.completion (some c) t)).smartContracts.length ≤ 100 := by
          rw [hcs]; exact lastN_length_le 100 _
        have hb2 : (POST st (.completion (some c) t)).navigatorUpdates.length ≤ 50 := by
          rw [hus]; exact h2
        have h := ih _ hb1 hb2
        constructor
        · rw [h.1, hcs, lastN_lastN_append]
          simp [postedContracts, List.filterMap_cons, List.append_assoc]
        · rw [h.2, hus]
          simp [postedUpdates, List.filterMap_cons]
    | update u t =>
      have hcs : (POST st (.update u t)).smartContracts = st.smartContracts := rfl
      have hus : (POST st (.update u t)).navigatorUpdates =
          lastN 50 (st.navigatorUpdates ++ [(u, t)]) := POST_updates_step st u t
      have hb1 : (POST st (.update u t)).smartContracts.length ≤ 100 := by
        rw [hcs]; exact h1
      have hb2 : (POST st (.update u t)).navigatorUpdates.length ≤ 50 := by
        rw [hus]; exact lastN_length_le 50 _
      have h := ih _ hb1 hb2
      constructor
      · rw [h.1, hcs]
        simp [postedContracts, List.filterMap_cons]
      · rw [h.2, hus, lastN_lastN_append]
        simp [postedUpdates, List.filterMap_cons, List.append_assoc]

/- Batteries seals the rational-number operations; re-enable their
definitional reduction so that concrete witness computations go through
`decide` in the kernel. -/
attribute [local semireducible] Rat.mul Rat.add Rat.sub Rat.inv

/- ------------------------------------------------------------- -/
/- Claim theorems.                                                -/
/- ------------------------------------------------------------- -/

/-- Claim C1 (corrected).  The empty-map guard of `estimateScaleBiases` is as
claimed: fewer than 2 equations or fewer than 2 collected identifiers gives
the empty map, and otherwise the key list is exactly the collected identifier
set.  But that collected set is not the set of identifiers appearing in a
qualifying equation: it also contains the id of every anchor that merely
carries a connections array and a non-empty destination (`idsOf` makes this
explicit), so an anchor contributing no equation can be a key. -/
theorem claim1_bias_map_keys (anchors : List Anchor) :
    ((buildSystem anchors).1.length < 2 ∨ (buildSystem anchors).2.length < 2 →
      estimateScaleBiases anchors = []) ∧
    (¬((buildSystem anchors).1.length < 2 ∨ (buildSystem anchors).2.length < 2) →
      (estimateScaleBiases anchors).map Prod.fst = (buildSystem anchors).2) ∧
    (∀ id, id ∈ (buildSystem anchors).2 ↔ id ∈ idsOf anchors) := by
  refine ⟨?_, ?_, buildSystem_snd_mem anchors⟩
  · intro h
    unfold estimateScaleBiases
    rw [if_pos h]
  · intro h
    unfold estimateScaleBiases
    rw [if_neg h]
    exact iterate_keys _ _ 10

/-- Claim C1, counterexample: in `exListC1` both equations are between "A"
and "B" only, yet "C" (whose connections array is empty) is a key of the
returned bias map. -/
theorem claim1_counterexample :
    (buildSystem exListC1).1 =
      [⟨"A", "B", 0⟩, ⟨"A", "B", 0⟩] ∧
    assocLookup (estimateScaleBiases exListC1) "C" = some 0 := by
  constructor
  · decide
  · decide

/-- Claim C1, witness for the amended key-set characterization. -/
theorem claim1_witness :
    ¬((buildSystem exListC3).1.length < 2 ∨ (buildSystem exListC3).2.length < 2) ∧
    (estimateScaleBiases exListC3).map Prod.fst = (buildSystem exListC3).2 :=
  ⟨by decide, (claim1_bias_map_keys exListC3).2.1 (by decide)⟩

/-- Claim C2 (corrected).  An equation is built exactly from the connections
that pass the gate of the code, which requires the measured distance to be
truthy, i.e. present AND nonzero: the membership characterization below has
the extra `m ≠ 0` condition the claim omits (and `connectedTo ≠ ""`, which is
subsumed by the ground-truth-key condition for this table). -/
theorem claim2_equation_membership (anchors : List Anchor) (e : BiasEquation) :
    e ∈ (buildSystem anchors).1 ↔
      ∃ a, a ∈ anchors ∧ ∃ conns, a.anchorConnections = some conns ∧
        a.destination ≠ "" ∧ ∃ c, c ∈ conns ∧ ∃ m g,
          c.measuredDistance = some m ∧ m ≠ 0 ∧ c.connectedTo ≠ "" ∧
          groundTruth (a.destination ++ "-" ++ c.connectedTo) = some g ∧
          e = ⟨a.id, c.connectedToId, 2 * (m - g) / g⟩ := by
  rw [buildSystem_fst, mem_eqsOf]
  constructor
  · rintro ⟨a, ha, hae⟩
    rw [mem_anchorEquations] at hae
    obtain ⟨conns, hc, hd, c, hcm, he⟩ := hae
    rw [connEquation_eq_some] at he
    obtain ⟨m, g, h1, h2, h3, h4, h5⟩ := he
    exact ⟨a, ha, conns, hc, hd, c, hcm, m, g, h1, h2, h3, h4, h5⟩
  · rintro ⟨a, ha, conns, hc, hd, c, hcm, m, g, h1, h2, h3, h4, h5⟩
    exact ⟨a, ha, mem_anchorEquations.mpr
      ⟨conns, hc, hd, c, hcm, connEquation_eq_some.mpr ⟨m, g, h1, h2, h3, h4, h5⟩⟩⟩

/-- Claim C2, counterexample: a connection with `measuredDistance` present
but equal to 0, whose ordered pair is in the ground-truth table, contributes
no equation (the claim says it must contribute one with `k = -2`). -/
theorem claim2_counterexample :
    zeroDistConn.measuredDistance = some 0 ∧
    groundTruth (zeroDistAnchor.destination ++ "-" ++ zeroDistConn.connectedTo) =
      some (10287/1000) ∧
    zeroDistAnchor.anchorConnections = some [zeroDistConn] ∧
    (buildSystem [zeroDistAnchor]).1 = [] := by
  refine ⟨rfl, by decide, rfl, by decide⟩

/-- Claim C2, witness: instantiating the characterization at a concrete
qualifying connection. -/
theorem claim2_witness :
    (⟨"A", "B", 0⟩ : BiasEquation) ∈ (buildSystem [windowExact]).1 :=
  (claim2_equation_membership [windowExact] ⟨"A", "B", 0⟩).mpr
    ⟨windowExact, by decide,
     [⟨"Kitchen", "B", some (10287/1000)⟩, ⟨"Meeting Room", "B", some (5587/1000)⟩],
     rfl, by decide,
     ⟨"Kitchen", "B", some (10287/1000)⟩, by decide,
     10287/1000, 10287/1000, rfl, by decide, by decide, by decide, by decide⟩

/-- Claim C3 (confirmed).  When least-squares is attempted, the map returned
by `estimateScaleBiases` agrees, on every string, with 10 iterations of the
spec's relaxation sweep started from the all-zero assignment: each sweep
recomputes every collected id as the mean over the equations touching it of
(k minus the other endpoint's previous-sweep bias), ids touched by no
equation get 0, and all reads use the previous sweep's values. -/
theorem claim3_relaxation_solver (anchors : List Anchor)
    (h : ¬((buildSystem anchors).1.length < 2 ∨ (buildSystem anchors).2.length < 2)) :
    ∀ x : String,
      assocLookup (estimateScaleBiases anchors) x =
        if x ∈ (buildSystem anchors).2
        then some ((specRelaxationStep (buildSystem anchors).1)^[10] (fun _ => 0) x)
        else none :=
  estimateScaleBiases_lookup anchors h

/-- Claim C3, witness on the two-equation path system. -/
theorem claim3_witness :
    ¬((buildSystem exListC3).1.length < 2 ∨ (buildSystem exListC3).2.length < 2) ∧
    assocLookup (estimateScaleBiases exListC3) "A" =
      (if "A" ∈ (buildSystem exListC3).2
       then some ((specRelaxationStep (buildSystem exListC3).1)^[10] (fun _ => 0) "A")
       else none) :=
  ⟨by decide, claim3_relaxation_solver exListC3 (by decide) "A"⟩

/-- Claim C4 (corrected).  When every equation of the system has k = 0, every
bias produced by `estimateScaleBiases` is 0; and the accuracy score of 100 is
guaranteed for every anchor whose id is a key of the bias map or that itself
contributes at least one qualifying equation — but not, as the claim has it,
for every anchor of the equation set: a target-only anchor falls back with no
data when the system is under-determined and scores 0. -/
theorem claim4_zero_error_biases (anchors : List Anchor) (anchor : Anchor)
    (hmem : anchor ∈ anchors)
    (hk : ∀ e ∈ (buildSystem anchors).1, e.k = 0) :
    (∀ p ∈ estimateScaleBiases anchors, p.2 = 0) ∧
    ((assocLookup (estimateScaleBiases anchors) anchor.id).isSome ∨
        anchorEquations anchor ≠ [] →
      (calculateAnchorQoD anchor anchors).accuracyScore = 100) := by
  have hzero := estimateScaleBiases_values_zero hk
  refine ⟨hzero, ?_⟩
  intro hcase
  have hls : ∀ b, assocLookup (estimateScaleBiases anchors) anchor.id = some b →
      (calculateAnchorQoD anchor anchors).accuracyScore = 100 := by
    intro b hb
    have hb0 : b = 0 := hzero (anchor.id, b) (assocLookup_mem hb)
    subst hb0
    simp only [calculateAnchorQoD, hb]
    norm_num [tau]
  cases hlook : assocLookup (estimateScaleBiases anchors) anchor.id with
  | some b => exact hls b hlook
  | none =>
    rcases hcase with hsome | hne
    · rw [hlook] at hsome
      simp at hsome
    · obtain ⟨e, he⟩ := List.exists_mem_of_ne_nil _ hne
      have hmem2 := mem_anchorEquations.mp he
      obtain ⟨conns, hc, hd, c, hcm, hce⟩ := hmem2
      have hpe_some : ∃ x, connPercentError anchor.destination c = some x := by
        rw [connEquation_eq_some] at hce
        obtain ⟨m, g, h1, h2, h3, h4, -⟩ := hce
        exact ⟨|(m - g) / g|, connPercentError_eq_some.mpr
          ⟨m, g, connGroundTruth_eq_some.mpr ⟨h1, h2, h3, h4⟩, rfl⟩⟩
      obtain ⟨x0, hx0⟩ := hpe_some
      have hpne : conns.filterMap (connPercentError anchor.destination) ≠ [] :=
        List.ne_nil_of_mem (List.mem_filterMap.mpr ⟨c, hcm, hx0⟩)
      have hallz : ∀ x ∈ conns.filterMap (connPercentError anchor.destination),
          x = 0 := by
        intro x hx
        obtain ⟨c', hc', hx'⟩ := List.mem_filterMap.mp hx
        rw [connPercentError_eq_some] at hx'
        obtain ⟨m, g, hmg, rfl⟩ := hx'
        have heq : connEquation anchor c' =
            some ⟨anchor.id, c'.connectedToId, 2 * (m - g) / g⟩ := by
          unfold connEquation
          rw [hmg]
          rfl
        have hmemeq : (⟨anchor.id, c'.connectedToId, 2 * (m - g) / g⟩ :
            BiasEquation) ∈ (buildSystem anchors).1 := by
          rw [buildSystem_fst]
          exact mem_anchorEquations_of_mem hmem
            (mem_anchorEquations.mpr ⟨conns, hc, hd, c', hc', heq⟩)
        have hk0 : 2 * (m - g) / g = 0 := hk _ hmemeq
        rcases div_eq_zero_iff.mp hk0 with h2 | hg
        · rcases mul_eq_zero.mp h2 with h2' | h2'
          · norm_num at h2'
          · rw [h2']
            simp
        · rw [hg]
          simp
      have hlen : 0 < conns.length := List.length_pos.mpr (List.ne_nil_of_mem hcm)
      simp only [calculateAnchorQoD, hlook, hc]
      rw [if_pos ⟨hlen, hd⟩, if_pos (List.length_pos.mpr hpne)]
      rw [median_zero hallz]
      norm_num [tau]

/-- Claim C4, counterexample: one exact-distance equation from "A" to "B"
(under-determined system, empty bias map); "B" is in the equation set but
scores accuracy 0, not 100. -/
theorem claim4_counterexample :
    (buildSystem exListC4).1 = [⟨"A", "B", 0⟩] ∧
    (calculateAnchorQoD singleEqTarget exListC4).accuracyScore = 0 := by
  constructor
  · decide
  · decide

/-- Claim C4, witness for the amended statement. -/
theorem claim4_witness :
    (buildSystem [windowExact]).1 = [⟨"A", "B", 0⟩, ⟨"A", "B", 0⟩] ∧
    (calculateAnchorQoD windowExact [windowExact]).accuracyScore = 100 :=
  ⟨by decide,
   (claim4_zero_error_biases [windowExact] windowExact (by decide) (by decide)).2
     (Or.inl (by decide))⟩

/-- Claim C5 (confirmed).  For an anchor absent from the bias map with a
non-empty destination and at least one qualifying connection, the fallback
path is taken: the accuracy score is `100 * max 0 (1 - median/tau)` for the
median of the absolute percent errors of the qualifying connections (average
of the two middle sorted values when even, middle when odd), the reported
bias is that median, and the method tag is 'fallback'. -/
theorem claim5_fallback_median (anchor : Anchor) (allAnchors : List Anchor)
    (conns : List AnchorConnection)
    (hlook : assocLookup (estimateScaleBiases allAnchors) anchor.id = none)
    (hconns : anchor.anchorConnections = some conns)
    (hdest : anchor.destination ≠ "")
    (hpe : conns.filterMap (connPercentError anchor.destination) ≠ []) :
    (calculateAnchorQoD anchor allAnchors).accuracyScore =
      100 * max 0
        (1 - median (conns.filterMap (connPercentError anchor.destination)) / tau) ∧
    (calculateAnchorQoD anchor allAnchors).scaleBias =
      some (median (conns.filterMap (connPercentError anchor.destination))) ∧
    (calculateAnchorQoD anchor allAnchors).method = QoDMethod.fallback := by
  have hlen : 0 < conns.length := by
    rcases conns with _ | ⟨c, t⟩
    · simp at hpe
    · simp
  simp only [calculateAnchorQoD, hlook, hconns]
  rw [if_pos ⟨hlen, hdest⟩, if_pos (List.length_pos.mpr hpe)]
  exact ⟨rfl, rfl, rfl⟩

/-- Claim C5, witness: the error set {0.02, 0.08, 0.05} has median 0.05 and
accuracy score exactly 0. -/
theorem claim5_witness :
    assocLookup (estimateScaleBiases []) fallbackAnchor.id = none ∧
    fallbackAnchor.destination ≠ "" ∧
    fallbackConns.filterMap (connPercentError fallbackAnchor.destination) ≠ [] ∧
    ((calculateAnchorQoD fallbackAnchor []).accuracyScore =
        100 * max 0 (1 - median (fallbackConns.filterMap
          (connPercentError fallbackAnchor.destination)) / tau) ∧
      (calculateAnchorQoD fallbackAnchor []).scaleBias =
        some (median (fallbackConns.filterMap
          (connPercentError fallbackAnchor.destination))) ∧
      (calculateAnchorQoD fallbackAnchor []).method = QoDMethod.fallback) ∧
    median (fallbackConns.filterMap (connPercentError fallbackAnchor.destination)) =
      1/20 ∧
    (calculateAnchorQoD fallbackAnchor []).accuracyScore = 0 :=
  ⟨by decide, by decide, by decide,
   claim5_fallback_median fallbackAnchor [] fallbackConns (by decide) rfl
     (by decide) (by decide),
   by decide, by decide⟩

/-- Claim C6 (confirmed).  An anchor whose id is in the bias map scores
`100 * max 0 (1 - |bias|/tau)` with method 'least-squares', hence 0 (and
never negative) when `|bias| ≥ tau = 0.05`; and for every anchor the overall
QoD is the clamped blend `min 100 (max 0 (0.8*accuracy + 0.2*health))`. -/
theorem claim6_least_squares_accuracy :
    (∀ (anchor : Anchor) (allAnchors : List Anchor) (b : ℚ),
      assocLookup (estimateScaleBiases allAnchors) anchor.id = some b →
        (calculateAnchorQoD anchor allAnchors).accuracyScore =
          100 * max 0 (1 - |b| / tau) ∧
        (calculateAnchorQoD anchor allAnchors).method = QoDMethod.leastSquares ∧
        (tau ≤ |b| → (calculateAnchorQoD anchor allAnchors).accuracyScore = 0)) ∧
    (∀ (anchor : Anchor) (allAnchors : List Anchor),
      0 ≤ (calculateAnchorQoD anchor allAnchors).accuracyScore ∧
      (calculateAnchorQoD anchor allAnchors).qod =
        min 100 (max 0 (4/5 * (calculateAnchorQoD anchor allAnchors).accuracyScore +
          1/5 * (calculateAnchorQoD anchor allAnchors).healthScore))) := by
  constructor
  · intro anchor allAnchors b hb
    have hacc : (calculateAnchorQoD anchor allAnchors).accuracyScore =
        100 * max 0 (1 - |b| / tau) := by
      simp only [calculateAnchorQoD, hb]
    have hmeth : (calculateAnchorQoD anchor allAnchors).method =
        QoDMethod.leastSquares := by
      simp only [calculateAnchorQoD, hb]
    refine ⟨hacc, hmeth, ?_⟩
    intro htau
    rw [hacc]
    have htaupos : (0 : ℚ) < tau := by norm_num [tau]
    have h1 : (1 : ℚ) ≤ |b| / tau := (one_le_div htaupos).mpr htau
    have h2 : 1 - |b| / tau ≤ 0 := by linarith
    rw [max_eq_left h2]
    ring
  · intro anchor allAnchors
    refine ⟨?_, rfl⟩
    cases hb : assocLookup (estimateScaleBiases allAnchors) anchor.id with
    | some b =>
      have hacc : (calculateAnchorQoD anchor allAnchors).accuracyScore =
          100 * max 0 (1 - |b| / tau) := by
        simp only [calculateAnchorQoD, hb]
      rw [hacc]
      exact mul_nonneg (by norm_num) (le_max_left _ _)
    | none =>
      cases hc : anchor.anchorConnections with
      | none =>
        have hacc : (calculateAnchorQoD anchor allAnchors).accuracyScore = 0 := by
          simp only [calculateAnchorQoD, hb, hc]
        rw [hacc]
      | some conns =>
        by_cases hp : 0 < conns.length ∧ anchor.destination ≠ ""
        · by_cases hq :
              0 < (conns.filterMap (connPercentError anchor.destination)).length
          · have hacc : (calculateAnchorQoD anchor allAnchors).accuracyScore =
                100 * max 0 (1 - median (conns.filterMap
                  (connPercentError anchor.destination)) / tau) := by
              simp only [calculateAnchorQoD, hb, hc]
              rw [if_pos hp, if_pos hq]
            rw [hacc]
            exact mul_nonneg (by norm_num) (le_max_left _ _)
          · have hacc : (calculateAnchorQoD anchor allAnchors).accuracyScore = 0 := by
              simp only [calculateAnchorQoD, hb, hc]
              rw [if_pos hp, if_neg hq]
            rw [hacc]
        · have hacc : (calculateAnchorQoD anchor allAnchors).accuracyScore = 0 := by
            simp only [calculateAnchorQoD, hb, hc]
            rw [if_neg hp]
          rw [hacc]

/-- Claim C6, witness: a zero-bias least-squares anchor, plus the clamp shape
on an anchor with no data. -/
theorem claim6_witness :
    assocLookup (estimateScaleBiases [windowExact]) windowExact.id = some 0 ∧
    ((calculateAnchorQoD windowExact [windowExact]).accuracyScore =
        100 * max 0 (1 - |(0 : ℚ)| / tau) ∧
      (calculateAnchorQoD windowExact [windowExact]).method =
        QoDMethod.leastSquares ∧
      (tau ≤ |(0 : ℚ)| →
        (calculateAnchorQoD windowExact [windowExact]).accuracyScore = 0)) ∧
    (0 ≤ (calculateAnchorQoD bareAnchor []).accuracyScore ∧
      (calculateAnchorQoD bareAnchor []).qod =
        min 100 (max 0 (4/5 * (calculateAnchorQoD bareAnchor []).accuracyScore +
          1/5 * (calculateAnchorQoD bareAnchor []).healthScore))) :=
  ⟨by decide,
   claim6_least_squares_accuracy.1 windowExact [windowExact] 0 (by decide),
   claim6_least_squares_accuracy.2 bareAnchor []⟩

/-- Claim C7 (confirmed).  The health score is
`100 * (0.8 * battery/100 + 0.2 * (status == active ? 1 : 0.5))` with a
missing battery read as 0; battery 0 (or missing) with status idle gives
exactly 10. -/
theorem claim7_health_score (anchor : Anchor) (allAnchors : List Anchor) :
    (calculateAnchorQoD anchor allAnchors).healthScore =
      100 * (4/5 * (anchor.battery.getD 0 / 100) +
        1/5 * (if anchor.status = AnchorStatus.active then 1 else 1/2)) ∧
    (anchor.battery.getD 0 = 0 → anchor.status = AnchorStatus.idle →
      (calculateAnchorQoD anchor allAnchors).healthScore = 10) := by
  refine ⟨rfl, ?_⟩
  intro hb hs
  show (100 : ℚ) * (4/5 * (anchor.battery.getD 0 / 100) +
      1/5 * (if anchor.status = AnchorStatus.active then 1 else 1/2)) = 10
  rw [hb, hs]
  have hne : ¬(AnchorStatus.idle = AnchorStatus.active) := by decide
  rw [if_neg hne]
  norm_num

/-- Claim C7, witness: missing battery, idle status, health exactly 10. -/
theorem claim7_witness :
    emptyBatteryAnchor.battery.getD 0 = 0 ∧
    emptyBatteryAnchor.status = AnchorStatus.idle ∧
    (calculateAnchorQoD emptyBatteryAnchor []).healthScore = 10 :=
  ⟨rfl, rfl, (claim7_health_score emptyBatteryAnchor []).2 rfl rfl⟩

/-- Claim C8 (corrected).  When neither path yields data the result is not
absent: the anchor still receives a numeric `QoDResult` whose accuracy score
is the sentinel 0 (method 'fallback') and whose overall QoD is the numeric
`min 100 (max 0 (0.2 * healthScore))`; only the `scaleBias` field is absent.
`calculateAllQoD` stores this numeric entry for the anchor. -/
theorem claim8_no_data_result (anchor : Anchor) (allAnchors : List Anchor)
    (hlook : assocLookup (estimateScaleBiases allAnchors) anchor.id = none)
    (hnodata : ∀ conns, anchor.anchorConnections = some conns →
      conns.filterMap (connPercentError anchor.destination) = []) :
    (calculateAnchorQoD anchor allAnchors).accuracyScore = 0 ∧
    (calculateAnchorQoD anchor allAnchors).scaleBias = none ∧
    (calculateAnchorQoD anchor allAnchors).method = QoDMethod.fallback ∧
    (calculateAnchorQoD anchor allAnchors).qod =
      min 100 (max 0 (1/5 * (calculateAnchorQoD anchor allAnchors).healthScore)) := by
  have hstruct : (calculateAnchorQoD anchor allAnchors).accuracyScore = 0 ∧
      (calculateAnchorQoD anchor allAnchors).scaleBias = none ∧
      (calculateAnchorQoD anchor allAnchors).method = QoDMethod.fallback := by
    cases hc : anchor.anchorConnections with
    | none =>
      refine ⟨?_, ?_, ?_⟩ <;> simp only [calculateAnchorQoD, hlook, hc]
    | some conns =>
      have hz := hnodata conns hc
      by_cases hp : 0 < conns.length ∧ anchor.destination ≠ ""
      · refine ⟨?_, ?_, ?_⟩ <;>
        · simp only [calculateAnchorQoD, hlook, hc, hz]
          rw [if_pos hp]
          norm_num
      · refine ⟨?_, ?_, ?_⟩ <;>
        · simp only [calculateAnchorQoD, hlook, hc]
          rw [if_neg hp]
  have hq : (calculateAnchorQoD anchor allAnchors).qod =
      min 100 (max 0 (4/5 * (calculateAnchorQoD anchor allAnchors).accuracyScore +
        1/5 * (calculateAnchorQoD anchor allAnchors).healthScore)) := rfl
  refine ⟨hstruct.1, hstruct.2.1, hstruct.2.2, ?_⟩
  rw [hq, hstruct.1]
  ring_nf

/-- Claim C8, counterexample: `bareAnchor` (no destination, no connections)
still gets a stored numeric entry with qod 12 and accuracy 0 — not an
absent/undefined score. -/
theorem claim8_counterexample :
    (assocLookup (calculateAllQoD [bareAnchor]) "X").map QoDResult.qod = some 12 ∧
    (assocLookup (calculateAllQoD [bareAnchor]) "X").map QoDResult.accuracyScore =
      some 0 := by
  constructor
  · decide
  · decide

/-- Claim C8, witness for the amended statement. -/
theorem claim8_witness :
    assocLookup (estimateScaleBiases [bareAnchor]) bareAnchor.id = none ∧
    ((calculateAnchorQoD bareAnchor [bareAnchor]).accuracyScore = 0 ∧
      (calculateAnchorQoD bareAnchor [bareAnchor]).scaleBias = none ∧
      (calculateAnchorQoD bareAnchor [bareAnchor]).method = QoDMethod.fallback ∧
      (calculateAnchorQoD bareAnchor [bareAnchor]).qod =
        min 100 (max 0 (1/5 * (calculateAnchorQoD bareAnchor [bareAnchor]).healthScore))) :=
  ⟨by decide,
   claim8_no_data_result bareAnchor [bareAnchor] (by decide)
     (fun conns h => Option.noConfusion h)⟩

/-- Claim C9 (corrected).  The function is total by construction (optional
fields are matched, never dereferenced), and an anchor with no destination
and no connections scores accuracy 0 with method 'fallback' — but only when
its id is not a key of the bias map: other anchors' connections can put the
id there, in which case it takes the least-squares path instead. -/
theorem claim9_no_destination (anchor : Anchor) (allAnchors : List Anchor)
    (hdest : anchor.destination = "")
    (hconn : anchor.anchorConnections = none)
    (hlook : assocLookup (estimateScaleBiases allAnchors) anchor.id = none) :
    (calculateAnchorQoD anchor allAnchors).accuracyScore = 0 ∧
    (calculateAnchorQoD anchor allAnchors).scaleBias = none ∧
    (calculateAnchorQoD anchor allAnchors).method = QoDMethod.fallback := by
  refine ⟨?_, ?_, ?_⟩ <;> simp only [calculateAnchorQoD, hlook, hconn]

set_option maxRecDepth 4000 in
/-- Claim C9, counterexample: an anchor with no destination and no
connections whose id is referenced by another anchor's qualifying
connections ends up in the bias map and scores accuracy 100 with method
'least-squares', not accuracy 0 with 'fallback'. -/
theorem claim9_counterexample :
    referencedByOthers.destination = "" ∧
    referencedByOthers.anchorConnections = none ∧
    (calculateAnchorQoD referencedByOthers exListC9).accuracyScore = 100 ∧
    (calculateAnchorQoD referencedByOthers exListC9).method =
      QoDMethod.leastSquares := by
  refine ⟨rfl, rfl, ?_, ?_⟩
  · decide
  · decide

/-- Claim C9, witness for the amended statement. -/
theorem claim9_witness :
    emptyBatteryAnchor.destination = "" ∧
    emptyBatteryAnchor.anchorConnections = none ∧
    ((calculateAnchorQoD emptyBatteryAnchor []).accuracyScore = 0 ∧
      (calculateAnchorQoD emptyBatteryAnchor []).scaleBias = none ∧
      (calculateAnchorQoD emptyBatteryAnchor []).method = QoDMethod.fallback) :=
  ⟨rfl, rfl, claim9_no_destination emptyBatteryAnchor [] rfl rfl (by decide)⟩

/-- Claim C10 (confirmed).  After any sequence of POST requests starting from
the empty stores, the contracts store is exactly the last 100 successfully
posted contracts, the updates store is exactly the last 50 posted updates
(oldest dropped first), both stay within their bounds, and GET returns
exactly the two stored lists (with the update count). -/
theorem claim10_relay_bounded_stores (rs : List RelayRequest) :
    (rs.foldl POST initialRelayState).smartContracts = lastN 100 (postedContracts rs) ∧
    (rs.foldl POST initialRelayState).navigatorUpdates = lastN 50 (postedUpdates rs) ∧
    (rs.foldl POST initialRelayState).smartContracts.length ≤ 100 ∧
    (rs.foldl POST initialRelayState).navigatorUpdates.length ≤ 50 ∧
    GET (rs.foldl POST initialRelayState) =
      ((rs.foldl POST initialRelayState).navigatorUpdates,
       (rs.foldl POST initialRelayState).smartContracts,
       (rs.foldl POST initialRelayState).navigatorUpdates.length) := by
  have h := relay_foldl rs initialRelayState (by simp [initialRelayState])
    (by simp [initialRelayState])
  have h1 : (rs.foldl POST initialRelayState).smartContracts =
      lastN 100 (postedContracts rs) := by
    have := h.1
    simpa [initialRelayState] using this
  have h2 : (rs.foldl POST initialRelayState).navigatorUpdates =
      lastN 50 (postedUpdates rs) := by
    have := h.2
    simpa [initialRelayState] using this
  refine ⟨h1, h2, ?_, ?_, rfl⟩
  · rw [h1]
    exact lastN_length_le 100 _
  · rw [h2]
    exact lastN_length_le 50 _

end UWBNav
